import Mathlib

/-!
Verification development for the `frender` template-rendering CLI
(`frender.py`).  The repository's own logic — file selection, context
loading dispatch, output placement, and the batch loop in `main` — is
shallowly embedded below.  External collaborators (the Jinja2 engine,
the format parsers, the process environment, OS write failures) are
modelled as explicit parameters, exactly as the spec declares them out
of scope.
-/

set_option autoImplicit false

namespace Frender

/-! ## Character-list string helpers

Python string operations used by the source, implemented over the
character list so that concrete runs reduce inside the kernel. -/

/-- Split at every occurrence of `sep`; like Python `str.split(sep)`,
the empty string yields one empty field. -/
def splitChar (sep : Char) (cs : List Char) : List (List Char) :=
  match cs with
  | [] => [[]]
  | c :: rest =>
    let r := splitChar sep rest
    if c = sep then [] :: r
    else
      match r with
      | [] => [[c]]
      | a :: t => (c :: a) :: t

def pySplit (sep : Char) (s : String) : List String :=
  (splitChar sep s.toList).map String.mk

/-- ASCII whitespace stripped by Python `str.strip()`. -/
def isPySpace (c : Char) : Bool :=
  c = ' ' || c = '\t' || c = '\n' || c = '\r' || c = '\x0b' || c = '\x0c'

def pyStrip (s : String) : String :=
  String.mk (((s.toList.dropWhile isPySpace).reverse.dropWhile isPySpace).reverse)

def pyLower (s : String) : String :=
  String.mk (s.toList.map Char.toLower)

/-! ## Paths

A purely functional model of `pathlib.PurePosixPath`: an absolute flag
plus a list of components.  `ofString` mirrors pathlib's constructor
normalisation (collapse repeated separators, drop `.` components),
`join` mirrors the `/` operator (an absolute right operand discards
the left one), and `name` / `parent` / `suffix` mirror the
corresponding properties.
-/

structure FPath where
  absolute : Bool
  components : List String
deriving DecidableEq, Repr

def FPath.ofString (s : String) : FPath :=
  { absolute := s.toList.head? == some '/'
    components := (pySplit '/' s).filter (fun c => c ≠ "" && c ≠ ".") }

def FPath.name (p : FPath) : String :=
  p.components.getLast?.getD ""

def FPath.parent (p : FPath) : FPath :=
  { p with components := p.components.dropLast }

/-- `pathlib`'s `/` operator: joining onto an absolute right operand
discards the left operand. -/
def FPath.join (b q : FPath) : FPath :=
  if q.absolute then q else { absolute := b.absolute, components := b.components ++ q.components }

/-- `pathlib`'s `relative_to`.  The real method raises `ValueError` when
`base` is not a prefix; `main` only ever calls it on paths produced by
globbing under `base`, so the fallback branch is unreachable there. -/
def FPath.relative_to (p base : FPath) : FPath :=
  if p.absolute = base.absolute ∧ List.isPrefixOf base.components p.components then
    { absolute := false, components := p.components.drop base.components.length }
  else
    { absolute := false, components := p.components }

def FPath.toStr (p : FPath) : String :=
  if p.absolute then "/" ++ String.intercalate "/" p.components
  else if p.components.isEmpty then "." else String.intercalate "/" p.components

/-- `PurePath.suffix`: the extension from the last dot of the final
component, empty when that dot is the first or the last character
(CPython: `i = name.rfind('.'); 0 < i < len(name) - 1`). -/
def pySuffix (nm : String) : String :=
  let cs := nm.toList
  let n := cs.length
  match List.findIdx? (fun c => c = '.') cs.reverse with
  | none => ""
  | some j =>
    let i := n - 1 - j
    if 0 < i ∧ i < n - 1 then String.mk (cs.drop i) else ""

/-- Immediate child: `p` is one component below directory `d`. -/
def FPath.isChildOf (p d : FPath) : Bool :=
  p.absolute == d.absolute && p.components.length == d.components.length + 1 &&
    List.isPrefixOf d.components p.components

/-- Strictly inside the subtree of `d`. -/
def FPath.isUnder (p d : FPath) : Bool :=
  p.absolute == d.absolute && d.components.length < p.components.length &&
    List.isPrefixOf d.components p.components

/-- All strict ancestors of `p` (what `parent.mkdir(parents=True)` creates). -/
def FPath.ancestors (p : FPath) : List FPath :=
  (List.range p.components.length).map
    (fun i => { absolute := p.absolute, components := p.components.take i })

/-! ## Filesystem model

A flat snapshot of regular files (with contents) and directories, the
state `collect_files`, `load_context` and `write_rendered` interact
with.
-/

structure FS where
  files : List (FPath × String)
  dirs : List FPath
deriving DecidableEq, Repr

def FS.readFile (fs : FS) (p : FPath) : Option String :=
  fs.files.lookup p

def FS.isFile (fs : FS) (p : FPath) : Bool :=
  (fs.readFile p).isSome

def FS.isDir (fs : FS) (p : FPath) : Bool :=
  fs.dirs.contains p

def FS.pathExists (fs : FS) (p : FPath) : Bool :=
  fs.isFile p || fs.isDir p

/-- Everything `glob` can enumerate: file paths and directory paths. -/
def FS.entries (fs : FS) : List FPath :=
  fs.files.map Prod.fst ++ fs.dirs

/-- No path is simultaneously a regular file and a directory. -/
def FS.wellFormed (fs : FS) : Bool :=
  (fs.files.map Prod.fst).all (fun p => !(fs.dirs.contains p))

def FS.writeFile (fs : FS) (p : FPath) (content : String) : FS :=
  { fs with files := (p, content) :: fs.files.filter (fun e => e.fst ≠ p) }

/-- `dest.parent.mkdir(parents=True, exist_ok=True)`: create every
missing ancestor directory of `dest`. -/
def FS.mkdirParents (fs : FS) (d : FPath) : FS :=
  { fs with dirs := fs.dirs ++ (FPath.ancestors d).filter (fun p => !(fs.dirs.contains p)) }

/-! ## `fnmatch` glob matching

Model of CPython's `fnmatch.fnmatch` (which on a POSIX `normcase` is
`fnmatchcase`): `*` matches any run, `?` any single character, and a
bracket group one character of a set, with `[!...]` negation, `a-z`
ranges, and a group missing its closing bracket taken literally.
-/

inductive GTok where
  | star
  | any
  | lit (c : Char)
  | set (neg : Bool) (cs : List Char)
deriving DecidableEq, Repr

/-- Split a list at the first occurrence of `stop`, dropping it. -/
def takeTill (stop : Char) : List Char → Option (List Char × List Char)
  | [] => none
  | c :: cs =>
    if c = stop then some ([], cs)
    else
      match takeTill stop cs with
      | none => none
      | some (a, b) => some (c :: a, b)

theorem takeTill_shrink (stop : Char) :
    ∀ cs a b, takeTill stop cs = some (a, b) → b.length < cs.length := by
  intro cs
  induction cs with
  | nil => intro a b h; simp [takeTill] at h
  | cons c cs ih =>
    intro a b h
    by_cases hc : c = stop
    · simp only [takeTill, if_pos hc] at h
      cases h
      simp
    · simp only [takeTill, if_neg hc] at h
      cases htk : takeTill stop cs with
      | none => rw [htk] at h; exact absurd h (by simp)
      | some ab =>
        obtain ⟨a', b'⟩ := ab
        rw [htk] at h
        have hlen := ih a' b' htk
        cases h
        simp
        omega

/-- The content region of a bracket group: chars after the opening `[`,
with a leading `]` (after an optional `!`) taken literally. -/
def bracketSplitAux (ps : List Char) : Option (List Char × List Char) :=
  match ps with
  | [] => none
  | c :: t =>
    if c = ']' then
      match takeTill ']' t with
      | some (a, b) => some (']' :: a, b)
      | none => none
    else
      takeTill ']' (c :: t)

theorem bracketSplitAux_shrink (ps a b : List Char)
    (h : bracketSplitAux ps = some (a, b)) : b.length < ps.length := by
  match ps with
  | [] => simp [bracketSplitAux] at h
  | c :: t =>
    simp only [bracketSplitAux] at h
    by_cases hc : c = ']'
    · rw [if_pos hc] at h
      cases htk : takeTill ']' t with
      | none => rw [htk] at h; exact absurd h (by simp)
      | some ab =>
        obtain ⟨a', b'⟩ := ab
        rw [htk] at h
        have hlen := takeTill_shrink ']' t a' b' htk
        cases h
        simp
        omega
    · rw [if_neg hc] at h
      exact takeTill_shrink ']' (c :: t) a b h

def bracketSplit (ps : List Char) : Option (Bool × List Char × List Char) :=
  match ps with
  | [] => none
  | c :: t =>
    if c = '!' then (bracketSplitAux t).map (fun ab => (true, ab.1, ab.2))
    else (bracketSplitAux (c :: t)).map (fun ab => (false, ab.1, ab.2))

theorem bracketSplit_shrink (ps : List Char) (nca : Bool × List Char × List Char)
    (h : bracketSplit ps = some nca) : nca.2.2.length < ps.length := by
  match ps with
  | [] => simp [bracketSplit] at h
  | c :: t =>
    simp only [bracketSplit] at h
    by_cases hc : c = '!'
    · rw [if_pos hc] at h
      cases hba : bracketSplitAux t with
      | none => rw [hba] at h; exact absurd h (by simp)
      | some ab =>
        rw [hba] at h
        have hlen := bracketSplitAux_shrink t ab.1 ab.2 (by rw [hba])
        simp only [Option.map_some'] at h
        cases h
        simp
        omega
    · rw [if_neg hc] at h
      cases hba : bracketSplitAux (c :: t) with
      | none => rw [hba] at h; exact absurd h (by simp)
      | some ab =>
        rw [hba] at h
        have hlen := bracketSplitAux_shrink (c :: t) ab.1 ab.2 (by rw [hba])
        simp only [Option.map_some'] at h
        cases h
        simpa using hlen

/-- Pattern compilation, structurally recursive on a fuel bound (every
step strictly shrinks the pattern, so any fuel above the pattern length
is exact: `compilePatF_eq`). -/
def compilePatF (fuel : Nat) (ps : List Char) : List GTok :=
  match fuel with
  | 0 => []
  | f + 1 =>
    match ps with
    | [] => []
    | c :: rest =>
      if c = '*' then GTok.star :: compilePatF f rest
      else if c = '?' then GTok.any :: compilePatF f rest
      else if c = '[' then
        match bracketSplit rest with
        | some nca => GTok.set nca.1 nca.2.1 :: compilePatF f nca.2.2
        | none => GTok.lit '[' :: compilePatF f rest
      else GTok.lit c :: compilePatF f rest

def compilePat (ps : List Char) : List GTok :=
  compilePatF (ps.length + 1) ps

theorem compilePatF_eq :
    ∀ f g ps, ps.length < f → ps.length < g → compilePatF f ps = compilePatF g ps := by
  intro f
  induction f with
  | zero => intro g ps hf; omega
  | succ f ih =>
    intro g ps hf hg
    match g, ps with
    | 0, _ => omega
    | g + 1, [] => rfl
    | g + 1, c :: rest =>
      simp only [List.length_cons] at hf hg
      simp only [compilePatF]
      by_cases h1 : c = '*'
      · rw [if_pos h1, if_pos h1, ih g rest (by omega) (by omega)]
      · rw [if_neg h1, if_neg h1]
        by_cases h2 : c = '?'
        · rw [if_pos h2, if_pos h2, ih g rest (by omega) (by omega)]
        · rw [if_neg h2, if_neg h2]
          by_cases h3 : c = '['
          · rw [if_pos h3, if_pos h3]
            cases hbs : bracketSplit rest with
            | none => simp [ih g rest (by omega) (by omega)]
            | some nca =>
              have hlt := bracketSplit_shrink rest nca hbs
              simp [ih g nca.2.2 (by omega) (by omega)]
          · rw [if_neg h3, if_neg h3, ih g rest (by omega) (by omega)]

/-- Membership of `c` in a bracket-group region, honouring `a-z` ranges
(a leading or trailing `-` is literal, as in `fnmatch.translate`). -/
def charInSet (cs : List Char) (c : Char) : Bool :=
  match cs with
  | a :: '-' :: b :: rest => (decide (a ≤ c) && decide (c ≤ b)) || charInSet rest c
  | a :: rest => (a == c) || charInSet rest c
  | [] => false

/-- Token matching, structurally recursive on a fuel bound (every step
strictly shrinks tokens plus characters, so any fuel above their total
length is exact: `gmatchF_eq`). -/
def gmatchF (fuel : Nat) (ts : List GTok) (s : List Char) : Bool :=
  match fuel with
  | 0 => false
  | f + 1 =>
    match ts, s with
    | [], [] => true
    | [], _ :: _ => false
    | GTok.star :: ts', [] => gmatchF f ts' []
    | GTok.star :: ts', c :: s' => gmatchF f ts' (c :: s') || gmatchF f (GTok.star :: ts') s'
    | GTok.any :: _, [] => false
    | GTok.any :: ts', _ :: s' => gmatchF f ts' s'
    | GTok.lit _ :: _, [] => false
    | GTok.lit a :: ts', c :: s' => (a == c) && gmatchF f ts' s'
    | GTok.set _ _ :: _, [] => false
    | GTok.set neg cs :: ts', c :: s' => (charInSet cs c != neg) && gmatchF f ts' s'

def gmatch (ts : List GTok) (s : List Char) : Bool :=
  gmatchF (ts.length + s.length + 1) ts s

theorem gmatchF_eq :
    ∀ f g ts s, ts.length + s.length < f → ts.length + s.length < g →
      gmatchF f ts s = gmatchF g ts s := by
  intro f
  induction f with
  | zero => intro g ts s hf; omega
  | succ f ih =>
    intro g ts s hf hg
    match g with
    | 0 => omega
    | g + 1 =>
      match ts, s with
      | [], [] => rfl
      | [], _ :: _ => rfl
      | GTok.star :: ts', [] =>
        simp only [List.length_cons, List.length_nil] at hf hg
        simp only [gmatchF]
        exact ih g ts' [] (by simp; omega) (by simp; omega)
      | GTok.star :: ts', c :: s' =>
        simp only [List.length_cons] at hf hg
        simp only [gmatchF]
        rw [ih g ts' (c :: s') (by simp; omega) (by simp; omega),
          ih g (GTok.star :: ts') s' (by simp; omega) (by simp; omega)]
      | GTok.any :: ts', [] => rfl
      | GTok.any :: ts', _ :: s' =>
        simp only [List.length_cons] at hf hg
        simp only [gmatchF]
        exact ih g ts' s' (by omega) (by omega)
      | GTok.lit a :: ts', [] => rfl
      | GTok.lit a :: ts', c :: s' =>
        simp only [List.length_cons] at hf hg
        simp only [gmatchF]
        rw [ih g ts' s' (by omega) (by omega)]
      | GTok.set neg cs :: ts', [] => rfl
      | GTok.set neg cs :: ts', c :: s' =>
        simp only [List.length_cons] at hf hg
        simp only [gmatchF]
        rw [ih g ts' s' (by omega) (by omega)]

def fnmatch (nm pat : String) : Bool :=
  gmatch (compilePat pat.toList) nm.toList

/-! ## CLI arguments and file collection -/

/-- The parsed argparse namespace, after the persisted-config layering
resolved `env_file` (`main` lines 320-323).  String options model
argparse's `None`-or-string values; Python truthiness treats an empty
string like an absent option. -/
structure Args where
  input_file : Option String
  list : Option String
  file_list : Option String
  dir : Option String
  recursive : Bool
  exclude : Option String
  output : Option String
  single_dir : Bool
  overwrite : Bool
  env_file : String
deriving DecidableEq, Repr

/-- Python truthiness of an optional string. -/
def truthy : Option String → Bool
  | none => false
  | some s => s != ""

/-- `[x.strip() for x in s.split(",") if x.strip()]` -/
def parseCommaList (s : String) : List String :=
  ((pySplit ',' s).map pyStrip).filter (fun x => x != "")

/-- Nonblank stripped lines of a list file. -/
def parseLines (content : String) : List String :=
  ((pySplit '\n' content).map pyStrip).filter (fun x => x != "")

/-- Error taxonomy: every `RenderError` raised by the source, with the
data its message interpolates. -/
inductive RErr where
  | inputFileNotFound (p : FPath)
  | fileInListNotFound (p : FPath)
  | fileListNotFound (p : FPath)
  | fileListedNotFound (p : FPath)
  | dirNotFound (p : FPath)
  | noInputFiles
  | loadContext (p : FPath) (cause : String)
  | renderFail (srcName : String) (cause : String)
  | writeFail (src : FPath) (dest : Option FPath) (cause : String)
deriving DecidableEq, Repr

/-- The human-readable message each error renders with (the f-strings of
the source): every file-related error names the offending path. -/
def RErr.message : RErr → String
  | .inputFileNotFound p => "Input file not found: " ++ p.toStr
  | .fileInListNotFound p => "File in list not found: " ++ p.toStr
  | .fileListNotFound p => "File list not found: " ++ p.toStr
  | .fileListedNotFound p => "File listed not found: " ++ p.toStr
  | .dirNotFound p => "Directory not found: " ++ p.toStr
  | .noInputFiles => "No input files collected. Use -l, -f, -d, or input_file."
  | .loadContext p cause => "Failed to load context from " ++ p.toStr ++ ": " ++ cause
  | .renderFail nm cause => "Failed to render template " ++ nm ++ ": " ++ cause
  | .writeFail src dest cause =>
      "Failed to write rendered output for " ++ src.toStr ++ " -> " ++
        (match dest with | some d => d.toStr | none => "None") ++ ": " ++ cause

/-- `get_exclude_patterns`: comma-split, strip, drop empties; each entry
passes through `Path(...)` (stringified back by `fnmatch`). -/
def get_exclude_patterns (a : Args) : List String :=
  match a.exclude with
  | none => []
  | some s => if s == "" then [] else (parseCommaList s).map (fun x => (FPath.ofString x).toStr)

def is_excluded (p : FPath) (patterns : List String) : Bool :=
  patterns.any (fun pat => fnmatch p.name pat)

/-- The directory walk of `collect_files`: `dir_path.rglob("*")` or
`dir_path.glob("*")`, keeping regular files not excluded by pattern. -/
def dirGlob (fs : FS) (d : FPath) (recursive : Bool) (patterns : List String) : List FPath :=
  if recursive then
    fs.entries.filter (fun p => p.isUnder d && fs.isFile p && !is_excluded p patterns)
  else
    fs.entries.filter (fun p => p.isChildOf d && fs.isFile p && !is_excluded p patterns)

/-- Check each explicitly named file in order, failing at the first that
is not a regular file. -/
def checkNamed (fs : FS) (mk : FPath → RErr) : List FPath → Except RErr (List FPath)
  | [] => .ok []
  | f :: rest =>
    if fs.isFile f then (checkNamed fs mk rest).map (fun l => f :: l)
    else .error (mk f)

/-- The `if args.input_file:` block of `collect_files`. -/
def collectInput (fs : FS) (a : Args) : Except RErr (List FPath) :=
  match a.input_file with
  | none => .ok []
  | some s =>
    if s == "" then .ok []
    else
      let f := FPath.ofString s
      if fs.isFile f then .ok [f] else .error (.inputFileNotFound f)

/-- The `if args.list:` block. -/
def collectList (fs : FS) (a : Args) : Except RErr (List FPath) :=
  match a.list with
  | none => .ok []
  | some s =>
    if s == "" then .ok []
    else checkNamed fs RErr.fileInListNotFound ((parseCommaList s).map FPath.ofString)

/-- The `if args.file_list:` block. -/
def collectFileList (fs : FS) (a : Args) : Except RErr (List FPath) :=
  match a.file_list with
  | none => .ok []
  | some s =>
    if s == "" then .ok []
    else
      let flist := FPath.ofString s
      match fs.readFile flist with
      | none => .error (.fileListNotFound flist)
      | some content =>
        checkNamed fs RErr.fileListedNotFound ((parseLines content).map FPath.ofString)

/-- The `if args.dir:` block. -/
def collectDir (fs : FS) (a : Args) : Except RErr (List FPath) :=
  match a.dir with
  | none => .ok []
  | some s =>
    if s == "" then .ok []
    else
      let d := FPath.ofString s
      if fs.isDir d then .ok (dirGlob fs d a.recursive (get_exclude_patterns a))
      else .error (.dirNotFound d)

def collect_files (fs : FS) (a : Args) : Except RErr (List FPath) :=
  match collectInput fs a with
  | .error e => .error e
  | .ok f₁ =>
    match collectList fs a with
    | .error e => .error e
    | .ok f₂ =>
      match collectFileList fs a with
      | .error e => .error e
      | .ok f₃ =>
        match collectDir fs a with
        | .error e => .error e
        | .ok f₄ =>
          let files := f₁ ++ f₂ ++ f₃ ++ f₄
          if files.isEmpty then .error .noInputFiles else .ok files

/-! ## Context loading

The format parsers themselves (PyYAML, `json`, `tomllib`,
`configparser` internals, `dotenv_values`) are external libraries; they
appear as a `Parsers` bundle of abstract parse functions.  What the
repository owns — existence check, suffix dispatch, the `or {}`
null-coalescing, the INI two-level mapping comprehension, and the
wrapping of any parse failure into a `RenderError` naming the file and
cause — is embedded exactly.
-/

/-- Template-context values: strings, numbers, booleans, or nested
mappings. -/
inductive CtxVal where
  | str (s : String)
  | int (n : Int)
  | bool (b : Bool)
  | map (m : List (String × CtxVal))

abbrev Ctx := List (String × CtxVal)

structure Parsers where
  /-- `yaml.safe_load`; `none` models a document parsed to `None`. -/
  yaml : String → Except String (Option Ctx)
  /-- `json.load`. -/
  json : String → Except String (Option Ctx)
  /-- `tomllib.load`. -/
  toml : String → Except String (Option Ctx)
  /-- `configparser`: the list of sections with their key/value items. -/
  ini : String → Except String (List (String × List (String × String)))
  /-- `dotenv_values`. -/
  env : String → Except String Ctx

def load_yaml_file (P : Parsers) (content : String) : Except String Ctx :=
  (P.yaml content).map (fun o => o.getD [])

def load_json_file (P : Parsers) (content : String) : Except String Ctx :=
  (P.json content).map (fun o => o.getD [])

def load_toml_file (P : Parsers) (content : String) : Except String Ctx :=
  (P.toml content).map (fun o => o.getD [])

/-- `{section: dict(parser.items(section)) for section in parser.sections()}` -/
def load_ini_file (P : Parsers) (content : String) : Except String Ctx :=
  (P.ini content).map
    (fun secs => secs.map
      (fun sc => (sc.1, CtxVal.map (sc.2.map (fun kv => (kv.1, CtxVal.str kv.2))))))

def load_env_file (P : Parsers) (content : String) : Except String Ctx :=
  P.env content

/-- Wrap a loader failure into the single `RenderError` kind carrying
the file path and the underlying cause. -/
def wrapCtx (p : FPath) : Except String Ctx → Except RErr Ctx
  | .ok ctx => .ok ctx
  | .error e => .error (.loadContext p e)

def load_context (P : Parsers) (fs : FS) (env_file : FPath) : Except RErr Ctx :=
  if fs.pathExists env_file = false then .ok []
  else
    match fs.readFile env_file with
    | none => .error (.loadContext env_file "unreadable path")
    | some content =>
      let sfx := pyLower (pySuffix env_file.name)
      if sfx = ".yaml" ∨ sfx = ".yml" then wrapCtx env_file (load_yaml_file P content)
      else if sfx = ".json" then wrapCtx env_file (load_json_file P content)
      else if sfx = ".toml" then wrapCtx env_file (load_toml_file P content)
      else if sfx = ".ini" then wrapCtx env_file (load_ini_file P content)
      else wrapCtx env_file (load_env_file P content)

/-! ## Jinja environment setup

The engine is external; what the repository owns is the registration
order: `env_var` is installed in both the filter table and the global
table, then discovered macros go to globals, then discovered filters go
to both, each pass overwriting dict-style (last write wins).  The
discovery passes themselves (directory walks plus dynamic loading) are
abstracted as the lists of callables they produce.
-/

/-- A template-callable of the `env_var` shape. -/
abbrev TplFn := String → String → String

/-- `env_var(ctx, default="")`: process-environment lookup with a
caller-supplied default. -/
def env_var (environ : String → Option String) (ctx : String) (default : String) : String :=
  (environ ctx).getD default

/-- The one-argument call form, with the default defaulted to `""`. -/
def env_var_one (environ : String → Option String) (ctx : String) : String :=
  env_var environ ctx ""

/-- Python dict assignment `m[k] = v`: overwrite in place or append. -/
def setKey (m : List (String × TplFn)) (k : String) (v : TplFn) : List (String × TplFn) :=
  if m.any (fun e => e.1 == k) then m.map (fun e => if e.1 == k then (k, v) else e)
  else m ++ [(k, v)]

structure JEnv where
  searchpath : List FPath
  filters : List (String × TplFn)
  globals : List (String × TplFn)

/-- `register_macros`: each discovered public macro goes into
`env.globals`. -/
def registerMacros (env : JEnv) (macros : List (String × TplFn)) : JEnv :=
  { env with globals := macros.foldl (fun g kv => setKey g kv.1 kv.2) env.globals }

/-- `register_filters`: each discovered public callable goes into both
`env.filters` and `env.globals`. -/
def registerFilters (env : JEnv) (fns : List (String × TplFn)) : JEnv :=
  fns.foldl
    (fun e kv =>
      { e with filters := setKey e.filters kv.1 kv.2, globals := setKey e.globals kv.1 kv.2 })
    env

def setup_environment (environ : String → Option String) (template_file : FPath)
    (macros : Option (List (String × TplFn))) (filterFns : Option (List (String × TplFn))) :
    JEnv :=
  let env : JEnv :=
    { searchpath := [template_file.parent]
      filters := setKey [] "env_var" (env_var environ)
      globals := setKey [] "env_var" (env_var environ) }
  let env := match macros with
    | some ms => registerMacros env ms
    | none => env
  match filterFns with
  | some fns => registerFilters env fns
  | none => env

/-! ## Output routing and the main loop -/

/-- The run's observable world: the filesystem plus everything printed
to standard output. -/
structure World where
  fs : FS
  out : List String
deriving DecidableEq, Repr

/-- `write_rendered`: `None` destination writes the text to stdout;
otherwise create the missing parents, write the file, and print the
confirmation line.  `wf` is the OS oracle for write failures (the cause
string when writing `dest` would raise). -/
def write_rendered (wf : FPath → Option String) (src : FPath) (rendered : String)
    (dest : Option FPath) (w : World) : World × Option RErr :=
  match dest with
  | none => ({ w with out := w.out ++ [rendered] }, none)
  | some d =>
    let fs₁ := w.fs.mkdirParents d
    match wf d with
    | none =>
      ({ fs := fs₁.writeFile d rendered
         out := w.out ++ ["Rendered: " ++ src.toStr ++ " -> " ++ d.toStr] }, none)
    | some cause => ({ w with fs := fs₁ }, some (.writeFail src (some d) cause))

/-- The destination computation of `main` lines 346-356 in
output-directory mode. -/
def destFor (a : Args) (src : FPath) : FPath :=
  let flatten :=
    if truthy a.input_file || truthy a.list then true
    else if truthy a.file_list || truthy a.dir then a.single_dir
    else false
  if flatten then
    FPath.join (FPath.ofString (a.output.getD "")) ⟨false, [src.name]⟩
  else
    let rel :=
      if truthy a.dir then src.relative_to (FPath.ofString (a.dir.getD "")) else src
    FPath.join (FPath.ofString (a.output.getD "")) rel

/-- One iteration of the `for src in files:` loop: render, then place
the output by the overwrite / output-directory / stdout chain.
`renderFn` abstracts the Jinja2 expansion of the file. -/
def processFile (renderFn : FPath → Except String String) (wf : FPath → Option String)
    (a : Args) (src : FPath) (w : World) : World × Option RErr :=
  match renderFn src with
  | .error e => (w, some (.renderFail src.name e))
  | .ok rendered =>
    if a.overwrite then write_rendered wf src rendered (some src) w
    else if truthy a.output then write_rendered wf src rendered (some (destFor a src)) w
    else write_rendered wf src rendered none w

/-- The batch loop, instrumented with the list of files actually
processed; a failure stops the remaining batch at once. -/
def runLoop (renderFn : FPath → Except String String) (wf : FPath → Option String)
    (a : Args) : List FPath → World → World × List FPath × Option RErr
  | [], w => (w, [], none)
  | src :: rest, w =>
    match processFile renderFn wf a src w with
    | (w', none) =>
      let r := runLoop renderFn wf a rest w'
      (r.1, src :: r.2.1, r.2.2)
    | (w', some e) => (w', [src], some e)

inductive Outcome where
  | success
  | fatal (e : RErr)
  | usage (msg : String)
deriving DecidableEq, Repr

/-- Exit codes: 0 on success, 1 for a `RenderError`, 2 for an argparse
usage error. -/
def exitCode : Outcome → Nat
  | .success => 0
  | .fatal _ => 1
  | .usage _ => 2

structure RunResult where
  outcome : Outcome
  world : World
  /-- the files the loop reached (rendering was attempted for them) -/
  rendered : List FPath
deriving DecidableEq, Repr

/-- `validate_input_sources`: exactly one of the four selection modes. -/
def numSources (a : Args) : Nat :=
  [truthy a.input_file, truthy a.list, truthy a.file_list, truthy a.dir].count true

def multiFileMsg : String := "Rendering multiple files requires --overwrite or --output."

/-- `main` after configuration resolution: validate the selection modes,
collect the files, reject a multi-file run without a placement target,
load the context once, then run the batch loop. -/
def main (renderFn : FPath → Except String String) (wf : FPath → Option String)
    (P : Parsers) (fs : FS) (a : Args) : RunResult :=
  if numSources a ≠ 1 then
    { outcome := .usage "exactly one input source required", world := ⟨fs, []⟩, rendered := [] }
  else
    match collect_files fs a with
    | .error e => { outcome := .fatal e, world := ⟨fs, []⟩, rendered := [] }
    | .ok files =>
      if !truthy a.output && !a.overwrite && files.length > 1 then
        { outcome := .usage multiFileMsg, world := ⟨fs, []⟩, rendered := [] }
      else
        match load_context P fs (FPath.ofString a.env_file) with
        | .error e => { outcome := .fatal e, world := ⟨fs, []⟩, rendered := [] }
        | .ok _ctx =>
          let r := runLoop renderFn wf a files ⟨fs, []⟩
          { outcome := match r.2.2 with | some e => .fatal e | none => .success
            world := r.1
            rendered := r.2.1 }

/-! ## Supporting lemmas -/

theorem lookup_isSome_mem (l : List (FPath × String)) (p : FPath) :
    (l.lookup p).isSome = true ↔ p ∈ l.map Prod.fst := by
  induction l with
  | nil => simp
  | cons e t ih =>
    by_cases he : p = e.1
    · simp [List.lookup, he]
    · have : (p == e.1) = false := by simpa using he
      simp [List.lookup, this, ih, he]

theorem isFile_mem_entries (fs : FS) (p : FPath) (h : fs.isFile p = true) :
    p ∈ fs.entries := by
  have := (lookup_isSome_mem fs.files p).mp h
  simp [FS.entries, this]

theorem wellFormed_not_dir (fs : FS) (p : FPath) (hwf : fs.wellFormed = true)
    (h : fs.isFile p = true) : fs.isDir p = false := by
  have hmem := (lookup_isSome_mem fs.files p).mp h
  have := List.all_eq_true.mp hwf p hmem
  simpa [FS.isDir] using this

theorem readFile_pathExists (fs : FS) (p : FPath) (c : String)
    (h : fs.readFile p = some c) : fs.pathExists p = true := by
  simp [FS.pathExists, FS.isFile, h]

/-! ## Claim C5 -/

/-- C5: Loading a context from a path that does not exist returns the
empty mapping and never raises an error, for every such path regardless
of its suffix. -/
theorem c5_missing_context_is_empty (P : Parsers) (fs : FS) (p : FPath)
    (h : fs.pathExists p = false) :
    load_context P fs p = .ok [] := by
  simp [load_context, h]

def stubParsers : Parsers :=
  { yaml := fun _ => .ok none, json := fun _ => .ok none, toml := fun _ => .ok none,
    ini := fun _ => .ok [], env := fun _ => .ok [] }

theorem c5_missing_context_is_empty_witness :
    load_context stubParsers ⟨[], []⟩ (FPath.ofString "absent.toml") = .ok [] :=
  c5_missing_context_is_empty stubParsers ⟨[], []⟩ (FPath.ofString "absent.toml") rfl

/-! ## Claim C6 -/

/-- C6: For every existing context file path, the loader is selected by
the lowercased filename suffix — `.yaml`/`.yml` the YAML parse, `.json`
the JSON parse, `.toml` the TOML parse, `.ini` a two-level mapping of
section name to key/value mapping, and any other suffix (including
none) the line-oriented KEY=VALUE parse — and a parse failure of any of
them surfaces as the single error kind carrying the file path and the
underlying cause. -/
theorem c6_suffix_dispatch (P : Parsers) (fs : FS) (p : FPath) (c : String)
    (h : fs.readFile p = some c) :
    ((pyLower (pySuffix p.name) = ".yaml" ∨ pyLower (pySuffix p.name) = ".yml") →
        load_context P fs p = wrapCtx p (load_yaml_file P c))
    ∧ (pyLower (pySuffix p.name) = ".json" →
        load_context P fs p = wrapCtx p (load_json_file P c))
    ∧ (pyLower (pySuffix p.name) = ".toml" →
        load_context P fs p = wrapCtx p (load_toml_file P c))
    ∧ (pyLower (pySuffix p.name) = ".ini" →
        load_context P fs p = wrapCtx p (load_ini_file P c)
        ∧ ∀ secs, P.ini c = .ok secs →
            load_context P fs p =
              .ok (secs.map (fun sc =>
                (sc.1, CtxVal.map (sc.2.map (fun kv => (kv.1, CtxVal.str kv.2)))))))
    ∧ (pyLower (pySuffix p.name) ∉ ([".yaml", ".yml", ".json", ".toml", ".ini"] : List String) →
        load_context P fs p = wrapCtx p (load_env_file P c))
    ∧ (∀ e, pyLower (pySuffix p.name) = ".json" → P.json c = .error e →
        load_context P fs p = .error (.loadContext p e)) := by
  have hex : fs.pathExists p = true := readFile_pathExists fs p c h
  have hload : load_context P fs p =
      (let sfx := pyLower (pySuffix p.name)
      if sfx = ".yaml" ∨ sfx = ".yml" then wrapCtx p (load_yaml_file P c)
      else if sfx = ".json" then wrapCtx p (load_json_file P c)
      else if sfx = ".toml" then wrapCtx p (load_toml_file P c)
      else if sfx = ".ini" then wrapCtx p (load_ini_file P c)
      else wrapCtx p (load_env_file P c)) := by
    simp [load_context, hex, h]
  refine ⟨?_, ?_, ?_, ?_, ?_, ?_⟩
  · intro hs
    simp only [hload]
    rw [if_pos hs]
  · intro hs
    simp only [hload]
    rw [if_neg (by rw [hs]; decide), if_pos hs]
  · intro hs
    simp only [hload]
    rw [if_neg (by rw [hs]; decide), if_neg (by rw [hs]; decide), if_pos hs]
  · intro hs
    have heq : load_context P fs p = wrapCtx p (load_ini_file P c) := by
      simp only [hload]
      rw [if_neg (by rw [hs]; decide), if_neg (by rw [hs]; decide),
        if_neg (by rw [hs]; decide), if_pos hs]
    refine ⟨heq, ?_⟩
    intro secs hsecs
    rw [heq]
    simp [load_ini_file, hsecs, wrapCtx, Except.map]
  · intro hs
    simp only [hload]
    rw [if_neg (fun hor => hs (by rcases hor with hh | hh <;> simp [hh])),
      if_neg (fun hh => hs (by simp [hh])),
      if_neg (fun hh => hs (by simp [hh])),
      if_neg (fun hh => hs (by simp [hh]))]
  · intro e hs hjson
    simp only [hload]
    rw [if_neg (by rw [hs]; decide), if_pos hs]
    simp [load_json_file, hjson, wrapCtx, Except.map]

theorem c6_suffix_dispatch_witness :
    load_context stubParsers ⟨[(FPath.ofString "cfg.JSON", "x")], []⟩
        (FPath.ofString "cfg.JSON")
      = wrapCtx (FPath.ofString "cfg.JSON") (load_json_file stubParsers "x") :=
  ((c6_suffix_dispatch stubParsers ⟨[(FPath.ofString "cfg.JSON", "x")], []⟩
      (FPath.ofString "cfg.JSON") "x" (by rfl)).2.1) (by decide)

/-! ## Claim C4 -/

/-- C4: For every directory-mode collection, with the recursive flag
unset the result contains exactly the regular files that are immediate
children of the directory, with it set exactly the regular files of the
full subtree; in both cases a file whose basename matches at least one
exclude pattern is omitted, and directories are never yielded. -/
theorem c4_dir_collection (fs : FS) (d p : FPath) (recursive : Bool) (patterns : List String)
    (hwf : fs.wellFormed = true) :
    (p ∈ dirGlob fs d recursive patterns ↔
      fs.isFile p = true ∧ is_excluded p patterns = false ∧
      (if recursive then p.isUnder d else p.isChildOf d) = true)
    ∧ (p ∈ dirGlob fs d recursive patterns → fs.isDir p = false) := by
  have key : ∀ cond : FPath → Bool,
      p ∈ fs.entries.filter (fun q => cond q && fs.isFile q && !is_excluded q patterns) ↔
        fs.isFile p = true ∧ is_excluded p patterns = false ∧ cond p = true := by
    intro cond
    constructor
    · intro hp
      obtain ⟨_, hpred⟩ := List.mem_filter.mp hp
      simp only [Bool.and_eq_true, Bool.not_eq_true'] at hpred
      exact ⟨hpred.1.2, hpred.2, hpred.1.1⟩
    · rintro ⟨hfile, hexcl, hcond⟩
      refine List.mem_filter.mpr ⟨isFile_mem_entries fs p hfile, ?_⟩
      simp [hfile, hexcl, hcond]
  have hiff : p ∈ dirGlob fs d recursive patterns ↔
      fs.isFile p = true ∧ is_excluded p patterns = false ∧
      (if recursive then p.isUnder d else p.isChildOf d) = true := by
    cases recursive with
    | false => simpa [dirGlob] using key (fun q => q.isChildOf d)
    | true => simpa [dirGlob] using key (fun q => q.isUnder d)
  exact ⟨hiff, fun hp => wellFormed_not_dir fs p hwf (hiff.mp hp).1⟩

def c4FS : FS :=
  { files := [(⟨false, ["d", "a.txt"]⟩, "x"), (⟨false, ["d", "a.bak"]⟩, "y")]
    dirs := [⟨false, ["d"]⟩] }

theorem c4_dir_collection_witness :
    (⟨false, ["d", "a.txt"]⟩ : FPath) ∈ dirGlob c4FS ⟨false, ["d"]⟩ false ["*.bak"] :=
  (c4_dir_collection c4FS ⟨false, ["d"]⟩ ⟨false, ["d", "a.txt"]⟩ false ["*.bak"]
      (by decide)).1.mpr ⟨by decide, by decide, by decide⟩

/-! ## Claim C10 -/

theorem collectInput_inactive (fs : FS) (a : Args) (h : truthy a.input_file = false) :
    collectInput fs a = .ok [] := by
  unfold collectInput
  cases hif : a.input_file with
  | none => rfl
  | some s =>
    rw [hif] at h
    simp only [truthy] at h
    rw [bne_eq_false_iff_eq] at h
    simp [h]

theorem collectList_inactive (fs : FS) (a : Args) (h : truthy a.list = false) :
    collectList fs a = .ok [] := by
  unfold collectList
  cases hif : a.list with
  | none => rfl
  | some s =>
    rw [hif] at h
    simp only [truthy] at h
    rw [bne_eq_false_iff_eq] at h
    simp [h]

theorem collectFileList_inactive (fs : FS) (a : Args) (h : truthy a.file_list = false) :
    collectFileList fs a = .ok [] := by
  unfold collectFileList
  cases hif : a.file_list with
  | none => rfl
  | some s =>
    rw [hif] at h
    simp only [truthy] at h
    rw [bne_eq_false_iff_eq] at h
    simp [h]

theorem collectDir_active (fs : FS) (a : Args) (d : String) (hd : a.dir = some d)
    (hdne : d ≠ "") (hdir : fs.isDir (FPath.ofString d) = true) :
    collectDir fs a =
      .ok (dirGlob fs (FPath.ofString d) a.recursive (get_exclude_patterns a)) := by
  unfold collectDir
  rw [hd]
  have : (d == "") = false := by simpa using hdne
  simp [this, hdir]

theorem truthy_some_ne (o : Option String) (d : String) (hd : o = some d) (hdne : d ≠ "") :
    truthy o = true := by
  rw [hd]
  simpa [truthy] using hdne

theorem collect_files_ok_ne_nil (fs : FS) (a : Args) (files : List FPath)
    (hok : collect_files fs a = .ok files) : files ≠ [] := by
  unfold collect_files at hok
  cases hI : collectInput fs a with
  | error e => simp [hI] at hok
  | ok f1 =>
    rw [hI] at hok
    cases hL : collectList fs a with
    | error e => simp [hL] at hok
    | ok f2 =>
      rw [hL] at hok
      cases hF : collectFileList fs a with
      | error e => simp [hF] at hok
      | ok f3 =>
        rw [hF] at hok
        cases hD : collectDir fs a with
        | error e => simp [hD] at hok
        | ok f4 =>
          rw [hD] at hok
          simp only at hok
          by_cases hem : (f1 ++ f2 ++ f3 ++ f4).isEmpty = true
          · rw [if_pos hem] at hok
            exact absurd hok (by simp)
          · rw [if_neg hem] at hok
            have hfe : files = f1 ++ f2 ++ f3 ++ f4 := by
              cases hok; rfl
            rw [hfe]
            intro hnil
            rw [hnil] at hem
            exact hem rfl

/-- C10: If file collection resolves to zero files — for example
directory mode over a directory whose every regular file is excluded —
the run fails with the input error `No input files collected` rather
than exiting successfully having done nothing; more generally a
successful collection never returns an empty list. -/
theorem c10_empty_collection_fails (fs : FS) (a : Args) (d : String)
    (h1 : truthy a.input_file = false) (h2 : truthy a.list = false)
    (h3 : truthy a.file_list = false) (hd : a.dir = some d) (hdne : d ≠ "")
    (hdir : fs.isDir (FPath.ofString d) = true)
    (hempty : dirGlob fs (FPath.ofString d) a.recursive (get_exclude_patterns a) = []) :
    (collect_files fs a = .error .noInputFiles
      ∧ ∀ renderFn wf P,
          main renderFn wf P fs a =
            { outcome := .fatal .noInputFiles, world := ⟨fs, []⟩, rendered := [] }
          ∧ exitCode (main renderFn wf P fs a).outcome ≠ 0)
    ∧ (∀ fs' a' files, collect_files fs' a' = .ok files → files ≠ []) := by
  have hcol : collect_files fs a = .error .noInputFiles := by
    unfold collect_files
    rw [collectInput_inactive fs a h1, collectList_inactive fs a h2,
      collectFileList_inactive fs a h3, collectDir_active fs a d hd hdne hdir, hempty]
    rfl
  have hns : numSources a = 1 := by
    have := truthy_some_ne a.dir d hd hdne
    simp [numSources, h1, h2, h3, this]
  constructor
  · refine ⟨hcol, ?_⟩
    intro renderFn wf P
    have hmain : main renderFn wf P fs a =
        { outcome := .fatal .noInputFiles, world := ⟨fs, []⟩, rendered := [] } := by
      unfold main
      rw [hcol]
      simp [hns]
    exact ⟨hmain, by rw [hmain]; simp [exitCode]⟩
  · exact fun fs' a' files hok => collect_files_ok_ne_nil fs' a' files hok

def c10FS : FS :=
  { files := [(⟨false, ["d", "a.bak"]⟩, "y")], dirs := [⟨false, ["d"]⟩] }

def c10Args : Args :=
  { input_file := none, list := none, file_list := none, dir := some "d", recursive := false,
    exclude := some "*.bak", output := none, single_dir := false, overwrite := false,
    env_file := ".env" }

theorem c10_empty_collection_fails_witness :
    collect_files c10FS c10Args = .error .noInputFiles :=
  ((c10_empty_collection_fails c10FS c10Args "d" rfl rfl rfl rfl (by decide) (by decide)
    (by decide)).1).1

/-! ## Claim C8 -/

theorem lookup_map_setKey (t : List (String × TplFn)) (k k' : String) (v : TplFn)
    (h : k' ≠ k) :
    List.lookup k' (t.map (fun e => if (e.1 == k) = true then (k, v) else e))
      = List.lookup k' t := by
  induction t with
  | nil => rfl
  | cons e t ih =>
    simp only [List.map_cons]
    by_cases hek : (e.1 == k) = true
    · rw [if_pos hek]
      have h1 : (k' == k) = false := by simpa using h
      have h2 : (k' == e.1) = false := by
        have he : e.1 = k := by simpa using hek
        rw [he]; exact h1
      simp only [List.lookup, h1, h2]
      exact ih
    · rw [if_neg hek]
      simp only [List.lookup]
      cases hke : k' == e.1
      · exact ih
      · rfl

theorem lookup_append_single_ne (t : List (String × TplFn)) (k k' : String) (v : TplFn)
    (h : k' ≠ k) :
    List.lookup k' (t ++ [(k, v)]) = List.lookup k' t := by
  induction t with
  | nil =>
    have h1 : (k' == k) = false := by simpa using h
    simp [List.lookup, h1]
  | cons e t ih =>
    simp only [List.cons_append, List.lookup]
    cases hke : k' == e.1
    · exact ih
    · rfl

theorem setKey_lookup_ne (m : List (String × TplFn)) (k k' : String) (v : TplFn)
    (h : k' ≠ k) : (setKey m k v).lookup k' = m.lookup k' := by
  unfold setKey
  by_cases hany : (m.any fun e => e.1 == k) = true
  · rw [if_pos hany]
    exact lookup_map_setKey m k k' v h
  · rw [if_neg hany]
    exact lookup_append_single_ne m k k' v h

theorem foldl_setKey_lookup_ne (ms : List (String × TplFn)) (g : List (String × TplFn))
    (k : String) (h : ∀ kv ∈ ms, kv.1 ≠ k) :
    (ms.foldl (fun g kv => setKey g kv.1 kv.2) g).lookup k = g.lookup k := by
  induction ms generalizing g with
  | nil => rfl
  | cons kv t ih =>
    simp only [List.foldl_cons]
    rw [ih (setKey g kv.1 kv.2) (fun kv' hm => h kv' (by simp [hm]))]
    exact setKey_lookup_ne g kv.1 k kv.2 (Ne.symm (h kv (by simp)))

theorem registerMacros_lookup_ne (ms : List (String × TplFn)) (env : JEnv) (k : String)
    (h : ∀ kv ∈ ms, kv.1 ≠ k) :
    (registerMacros env ms).globals.lookup k = env.globals.lookup k
    ∧ (registerMacros env ms).filters.lookup k = env.filters.lookup k := by
  unfold registerMacros
  exact ⟨foldl_setKey_lookup_ne ms env.globals k h, rfl⟩

theorem registerFilters_lookup_ne (fns : List (String × TplFn)) (env : JEnv) (k : String)
    (h : ∀ kv ∈ fns, kv.1 ≠ k) :
    (registerFilters env fns).globals.lookup k = env.globals.lookup k
    ∧ (registerFilters env fns).filters.lookup k = env.filters.lookup k := by
  induction fns generalizing env with
  | nil => exact ⟨rfl, rfl⟩
  | cons kv t ih =>
    have hkv : kv.1 ≠ k := h kv (by simp)
    have ht : ∀ kv' ∈ t, kv'.1 ≠ k := fun kv' hm => h kv' (by simp [hm])
    have hstep := ih
      { env with filters := setKey env.filters kv.1 kv.2, globals := setKey env.globals kv.1 kv.2 }
      ht
    unfold registerFilters at hstep ⊢
    rw [List.foldl_cons]
    constructor
    · rw [hstep.1]
      exact setKey_lookup_ne env.globals kv.1 k kv.2 (Ne.symm hkv)
    · rw [hstep.2]
      exact setKey_lookup_ne env.filters kv.1 k kv.2 (Ne.symm hkv)

/-- C8: The built-in `env_var` lookup is registered in both the global
and the filter table of every environment `setup_environment` builds
(whatever macros and filters are loaded, as long as none shadows the
name), it returns the process environment value when the variable is
set and the caller-supplied default otherwise, the default defaults to
the empty string, and in particular an unset name with default
`fallback` yields `fallback`. -/
theorem c8_env_var (environ : String → Option String) (tf : FPath)
    (macros filterFns : Option (List (String × TplFn))) (nm dflt v : String)
    (hm : ∀ ms, macros = some ms → ∀ kv ∈ ms, kv.1 ≠ "env_var")
    (hf : ∀ fns, filterFns = some fns → ∀ kv ∈ fns, kv.1 ≠ "env_var") :
    ((setup_environment environ tf macros filterFns).globals.lookup "env_var"
        = some (env_var environ)
      ∧ (setup_environment environ tf macros filterFns).filters.lookup "env_var"
        = some (env_var environ))
    ∧ (environ nm = some v → env_var environ nm dflt = v)
    ∧ (environ nm = none → env_var environ nm dflt = dflt)
    ∧ env_var_one environ nm = env_var environ nm ""
    ∧ (environ "MISSING" = none → env_var environ "MISSING" "fallback" = "fallback") := by
  refine ⟨?_, ?_, ?_, rfl, ?_⟩
  · have hbase :
        (setKey ([] : List (String × TplFn)) "env_var" (env_var environ)).lookup "env_var"
          = some (env_var environ) := rfl
    unfold setup_environment
    cases hms : macros with
    | none =>
      cases hfs : filterFns with
      | none => exact ⟨hbase, hbase⟩
      | some fns =>
        have := registerFilters_lookup_ne fns
          { searchpath := [tf.parent]
            filters := setKey [] "env_var" (env_var environ)
            globals := setKey [] "env_var" (env_var environ) } "env_var" (hf fns hfs)
        exact ⟨by rw [this.1]; exact hbase, by rw [this.2]; exact hbase⟩
    | some ms =>
      have hmac := registerMacros_lookup_ne ms
        { searchpath := [tf.parent]
          filters := setKey [] "env_var" (env_var environ)
          globals := setKey [] "env_var" (env_var environ) } "env_var" (hm ms hms)
      cases hfs : filterFns with
      | none => exact ⟨by rw [hmac.1]; exact hbase, by rw [hmac.2]; exact hbase⟩
      | some fns =>
        have hfil := registerFilters_lookup_ne fns
          (registerMacros
            { searchpath := [tf.parent]
              filters := setKey [] "env_var" (env_var environ)
              globals := setKey [] "env_var" (env_var environ) } ms) "env_var" (hf fns hfs)
        exact ⟨by rw [hfil.1, hmac.1]; exact hbase, by rw [hfil.2, hmac.2]; exact hbase⟩
  · intro h
    simp [env_var, h]
  · intro h
    simp [env_var, h]
  · intro h
    simp [env_var, h]

theorem c8_env_var_witness :
    ((setup_environment (fun _ => none) ⟨false, ["t.j2"]⟩ none none).globals.lookup "env_var"
        = some (env_var (fun _ => none)))
    ∧ env_var (fun _ => none) "MISSING" "fallback" = "fallback" :=
  have h := c8_env_var (fun _ => none) ⟨false, ["t.j2"]⟩ none none "MISSING" "fallback" ""
    (fun ms hms => by cases hms) (fun fns hfs => by cases hfs)
  ⟨h.1.1, h.2.2.2.2 rfl⟩

/-! ## Claim C2 -/

/-- C2: Whenever the collected file set contains more than one file and
neither the overwrite flag nor an output directory is given, the run
fails with the usage error before any file is rendered or written
(the world is untouched and the loop reaches no file); and a
standard-output run can only succeed when exactly one file was
selected. -/
theorem c2_multi_file_needs_target (renderFn : FPath → Except String String)
    (wf : FPath → Option String) (P : Parsers) (fs : FS) (a : Args) (files : List FPath)
    (hns : numSources a = 1) (hcol : collect_files fs a = .ok files)
    (hout : truthy a.output = false) (hov : a.overwrite = false) :
    (1 < files.length →
      main renderFn wf P fs a =
        { outcome := .usage multiFileMsg, world := ⟨fs, []⟩, rendered := [] })
    ∧ ((main renderFn wf P fs a).outcome = .success → files.length = 1) := by
  constructor
  · intro hlen
    unfold main
    rw [hcol]
    simp [hns, hout, hov, hlen]
  · intro hsucc
    by_cases hgate : (!truthy a.output && !a.overwrite && decide (files.length > 1)) = true
    · exfalso
      unfold main at hsucc
      rw [hcol] at hsucc
      simp [hns, hgate] at hsucc
    · have hle : ¬1 < files.length := by
        simp only [hout, hov, Bool.not_false, Bool.true_and, decide_eq_true_eq] at hgate
        exact hgate
      have hne := collect_files_ok_ne_nil fs a files hcol
      have hlen0 : files.length ≠ 0 := by
        simpa [List.length_eq_zero] using hne
      omega

def c2FS : FS :=
  { files := [(⟨false, ["a.txt"]⟩, "x"), (⟨false, ["b.txt"]⟩, "y")], dirs := [] }

def c2Args : Args :=
  { input_file := none, list := some "a.txt,b.txt", file_list := none, dir := none,
    recursive := false, exclude := none, output := none, single_dir := false,
    overwrite := false, env_file := ".env" }

theorem c2_multi_file_needs_target_witness :
    main (fun _ => .ok "R") (fun _ => none) stubParsers c2FS c2Args =
      { outcome := .usage multiFileMsg, world := ⟨c2FS, []⟩, rendered := [] } :=
  (c2_multi_file_needs_target (fun _ => .ok "R") (fun _ => none) stubParsers c2FS c2Args
      [⟨false, ["a.txt"]⟩, ⟨false, ["b.txt"]⟩] (by decide) (by rfl) rfl rfl).1 (by decide)

/-! ## Claim C7 -/

theorem checkNamed_error (fs : FS) (mk : FPath → RErr) (pre : List FPath) (f : FPath)
    (post : List FPath) (hpre : ∀ g ∈ pre, fs.isFile g = true) (hf : fs.isFile f = false) :
    checkNamed fs mk (pre ++ f :: post) = .error (mk f) := by
  induction pre with
  | nil => simp [checkNamed, hf]
  | cons g t ih =>
    have hg : fs.isFile g = true := hpre g (by simp)
    have ht : ∀ g' ∈ t, fs.isFile g' = true := fun g' hm => hpre g' (by simp [hm])
    simp [checkNamed, hg, ih ht, Except.map]

theorem parseCommaList_empty : parseCommaList "" = [] := rfl

theorem parseLines_empty : parseLines "" = [] := rfl

/-- C7: Every explicitly named input file (the positional path, each
comma-list entry, each file-list line) that is not a regular file fails
the run at collection time with an error naming that file; a named
directory that is not a directory likewise fails the run naming it; and
a collection error reaches `main` before anything is rendered or
written. -/
theorem c7_eager_validation (fs : FS) (a : Args) :
    (∀ s, a.input_file = some s → s ≠ "" → fs.isFile (FPath.ofString s) = false →
      collect_files fs a = .error (.inputFileNotFound (FPath.ofString s)))
    ∧ (∀ s pre f post, a.list = some s → truthy a.input_file = false →
        (parseCommaList s).map FPath.ofString = pre ++ f :: post →
        (∀ g ∈ pre, fs.isFile g = true) → fs.isFile f = false →
        collect_files fs a = .error (.fileInListNotFound f))
    ∧ (∀ s, a.file_list = some s → s ≠ "" →
        truthy a.input_file = false → truthy a.list = false →
        fs.readFile (FPath.ofString s) = none →
        collect_files fs a = .error (.fileListNotFound (FPath.ofString s)))
    ∧ (∀ s content pre f post, a.file_list = some s → s ≠ "" →
        truthy a.input_file = false → truthy a.list = false →
        fs.readFile (FPath.ofString s) = some content →
        (parseLines content).map FPath.ofString = pre ++ f :: post →
        (∀ g ∈ pre, fs.isFile g = true) → fs.isFile f = false →
        collect_files fs a = .error (.fileListedNotFound f))
    ∧ (∀ s, a.dir = some s → s ≠ "" →
        truthy a.input_file = false → truthy a.list = false → truthy a.file_list = false →
        fs.isDir (FPath.ofString s) = false →
        collect_files fs a = .error (.dirNotFound (FPath.ofString s)))
    ∧ (∀ e renderFn wf P, collect_files fs a = .error e → numSources a = 1 →
        main renderFn wf P fs a =
          { outcome := .fatal e, world := ⟨fs, []⟩, rendered := [] }) := by
  refine ⟨?_, ?_, ?_, ?_, ?_, ?_⟩
  · intro s hif hne hnf
    have hci : collectInput fs a = .error (.inputFileNotFound (FPath.ofString s)) := by
      unfold collectInput
      rw [hif]
      have hs : (s == "") = false := by simpa using hne
      simp [hs, hnf]
    unfold collect_files
    rw [hci]
  · intro s pre f post hl hif hsplit hpre hf
    have hci := collectInput_inactive fs a hif
    have hcl : collectList fs a = .error (.fileInListNotFound f) := by
      unfold collectList
      rw [hl]
      have hsne : (s == "") = false := by
        rcases eq_or_ne s "" with he | hne
        · subst he
          rw [parseCommaList_empty] at hsplit
          have hlen := congrArg List.length hsplit
          simp at hlen
          exfalso
          omega
        · simpa using hne
      simp only [hsne, Bool.false_eq_true, if_false]
      rw [hsplit]
      exact checkNamed_error fs _ pre f post hpre hf
    unfold collect_files
    rw [hci, hcl]
  · intro s hfl hne hif hl hread
    have hci := collectInput_inactive fs a hif
    have hcl := collectList_inactive fs a hl
    have hcf : collectFileList fs a = .error (.fileListNotFound (FPath.ofString s)) := by
      unfold collectFileList
      rw [hfl]
      have hs : (s == "") = false := by simpa using hne
      simp [hs, hread]
    unfold collect_files
    rw [hci, hcl, hcf]
  · intro s content pre f post hfl hne hif hl hread hsplit hpre hf
    have hci := collectInput_inactive fs a hif
    have hcl := collectList_inactive fs a hl
    have hcf : collectFileList fs a = .error (.fileListedNotFound f) := by
      unfold collectFileList
      rw [hfl]
      have hs : (s == "") = false := by simpa using hne
      simp only [hs, Bool.false_eq_true, if_false]
      rw [hread]
      simp only
      rw [hsplit]
      exact checkNamed_error fs _ pre f post hpre hf
    unfold collect_files
    rw [hci, hcl, hcf]
  · intro s hd hne hif hl hfl hnd
    have hci := collectInput_inactive fs a hif
    have hcl := collectList_inactive fs a hl
    have hcf := collectFileList_inactive fs a hfl
    have hcd : collectDir fs a = .error (.dirNotFound (FPath.ofString s)) := by
      unfold collectDir
      rw [hd]
      have hs : (s == "") = false := by simpa using hne
      simp [hs, hnd]
    unfold collect_files
    rw [hci, hcl, hcf, hcd]
  · intro e renderFn wf P hcol hns
    unfold main
    rw [hcol]
    simp [hns]

def c7FS : FS := { files := [], dirs := [] }

def c7Args : Args :=
  { input_file := some "ghost.txt", list := none, file_list := none, dir := none,
    recursive := false, exclude := none, output := none, single_dir := false,
    overwrite := false, env_file := ".env" }

theorem c7_eager_validation_witness :
    collect_files c7FS c7Args = .error (.inputFileNotFound (FPath.ofString "ghost.txt"))
    ∧ main (fun _ => .ok "R") (fun _ => none) stubParsers c7FS c7Args =
        { outcome := .fatal (.inputFileNotFound (FPath.ofString "ghost.txt")),
          world := ⟨c7FS, []⟩, rendered := [] } :=
  have h := c7_eager_validation c7FS c7Args
  have hcol := h.1 "ghost.txt" rfl (by decide) rfl
  ⟨hcol, h.2.2.2.2.2 _ (fun _ => .ok "R") (fun _ => none) stubParsers hcol (by decide)⟩

/-! ## Claim C9 -/

theorem runLoop_ok_front (renderFn : FPath → Except String String) (wf : FPath → Option String)
    (a : Args) (pre rest : List FPath) (w : World)
    (hpre : ∀ f ∈ pre, ∀ w', (processFile renderFn wf a f w').2 = none) :
    runLoop renderFn wf a (pre ++ rest) w =
      ((runLoop renderFn wf a rest (runLoop renderFn wf a pre w).1).1,
       pre ++ (runLoop renderFn wf a rest (runLoop renderFn wf a pre w).1).2.1,
       (runLoop renderFn wf a rest (runLoop renderFn wf a pre w).1).2.2) := by
  induction pre generalizing w with
  | nil => simp [runLoop]
  | cons p t ih =>
    have hp := hpre p (by simp) w
    have ht : ∀ f ∈ t, ∀ w', (processFile renderFn wf a f w').2 = none :=
      fun f hm w' => hpre f (by simp [hm]) w'
    rcases hpf : processFile renderFn wf a p w with ⟨w1, e1⟩
    rw [hpf] at hp
    simp only at hp
    subst hp
    simp only [List.cons_append, runLoop, hpf]
    simp only [List.append_eq]
    rw [ih w1 ht]

/-- C9: In a multi-file batch, a render failure (or, in overwrite mode,
a write failure) on the Nth file terminates the run immediately with a
nonzero exit: the loop reaches no file after the Nth, and the world —
including every file successfully written before the failure — is
exactly the state after the first N-1 files (no rollback). -/
theorem c9_fail_fast (renderFn : FPath → Except String String) (wf : FPath → Option String)
    (P : Parsers) (fs : FS) (a : Args) (pre : List FPath) (bad : FPath) (post : List FPath)
    (hns : numSources a = 1)
    (hcol : collect_files fs a = .ok (pre ++ bad :: post))
    (hgate : (!truthy a.output && !a.overwrite && decide ((pre ++ bad :: post).length > 1))
      = false)
    (hctx : ∃ ctx, load_context P fs (FPath.ofString a.env_file) = .ok ctx)
    (hpre : ∀ f ∈ pre, ∀ w', (processFile renderFn wf a f w').2 = none) :
    (∀ err, renderFn bad = .error err →
      (main renderFn wf P fs a).rendered = pre ++ [bad]
      ∧ (main renderFn wf P fs a).world = (runLoop renderFn wf a pre ⟨fs, []⟩).1
      ∧ (main renderFn wf P fs a).outcome = .fatal (.renderFail bad.name err)
      ∧ exitCode (main renderFn wf P fs a).outcome ≠ 0)
    ∧ (∀ r c, renderFn bad = .ok r → a.overwrite = true → wf bad = some c →
      (main renderFn wf P fs a).rendered = pre ++ [bad]
      ∧ (main renderFn wf P fs a).world.fs.files
          = (runLoop renderFn wf a pre ⟨fs, []⟩).1.fs.files
      ∧ (main renderFn wf P fs a).outcome = .fatal (.writeFail bad (some bad) c)
      ∧ exitCode (main renderFn wf P fs a).outcome ≠ 0) := by
  obtain ⟨ctx, hctxeq⟩ := hctx
  have hmain : ∀ wend aend eend,
      runLoop renderFn wf a (pre ++ bad :: post) ⟨fs, []⟩ = (wend, aend, some eend) →
      main renderFn wf P fs a = { outcome := .fatal eend, world := wend, rendered := aend } := by
    intro wend aend eend hrun
    unfold main
    rw [hcol]
    simp only [hns, ne_eq, not_true_eq_false, if_false, hgate, Bool.false_eq_true, hctxeq, hrun]
  constructor
  · intro err hbad
    have hbadstep : ∀ w', processFile renderFn wf a bad w'
        = (w', some (.renderFail bad.name err)) := by
      intro w'
      unfold processFile
      rw [hbad]
    have hlast : ∀ w', runLoop renderFn wf a (bad :: post) w'
        = (w', [bad], some (.renderFail bad.name err)) := by
      intro w'
      simp only [runLoop, hbadstep]
    have htotal : runLoop renderFn wf a (pre ++ bad :: post) ⟨fs, []⟩
        = ((runLoop renderFn wf a pre ⟨fs, []⟩).1, pre ++ [bad],
           some (.renderFail bad.name err)) := by
      rw [runLoop_ok_front renderFn wf a pre (bad :: post) ⟨fs, []⟩ hpre,
        hlast (runLoop renderFn wf a pre ⟨fs, []⟩).1]
    have := hmain _ _ _ htotal
    rw [this]
    exact ⟨rfl, rfl, rfl, by simp [exitCode]⟩
  · intro r c hok hov hwf
    have hbadstep : ∀ w', processFile renderFn wf a bad w'
        = ({ w' with fs := w'.fs.mkdirParents bad }, some (.writeFail bad (some bad) c)) := by
      intro w'
      unfold processFile
      rw [hok]
      simp only [hov, if_true, write_rendered, hwf]
    have hlast : ∀ w', runLoop renderFn wf a (bad :: post) w'
        = ({ w' with fs := w'.fs.mkdirParents bad }, [bad],
           some (.writeFail bad (some bad) c)) := by
      intro w'
      simp only [runLoop, hbadstep]
    have htotal : runLoop renderFn wf a (pre ++ bad :: post) ⟨fs, []⟩
        = ({ (runLoop renderFn wf a pre ⟨fs, []⟩).1 with
              fs := (runLoop renderFn wf a pre ⟨fs, []⟩).1.fs.mkdirParents bad },
           pre ++ [bad], some (.writeFail bad (some bad) c)) := by
      rw [runLoop_ok_front renderFn wf a pre (bad :: post) ⟨fs, []⟩ hpre,
        hlast (runLoop renderFn wf a pre ⟨fs, []⟩).1]
    have := hmain _ _ _ htotal
    rw [this]
    exact ⟨rfl, rfl, rfl, by simp [exitCode]⟩

def c9FS : FS :=
  { files := [(⟨false, ["a.txt"]⟩, "x"), (⟨false, ["b.txt"]⟩, "y"), (⟨false, ["c.txt"]⟩, "z")]
    dirs := [] }

def c9Args : Args :=
  { input_file := none, list := some "a.txt,b.txt,c.txt", file_list := none, dir := none,
    recursive := false, exclude := none, output := none, single_dir := false,
    overwrite := true, env_file := ".env" }

def c9Render : FPath → Except String String :=
  fun p => if p = ⟨false, ["b.txt"]⟩ then .error "boom" else .ok "R"

theorem c9_fail_fast_witness :
    (main c9Render (fun _ => none) stubParsers c9FS c9Args).rendered
        = [⟨false, ["a.txt"]⟩, ⟨false, ["b.txt"]⟩]
    ∧ (main c9Render (fun _ => none) stubParsers c9FS c9Args).outcome
        = .fatal (.renderFail "b.txt" "boom") :=
  have h := (c9_fail_fast c9Render (fun _ => none) stubParsers c9FS c9Args
      [⟨false, ["a.txt"]⟩] ⟨false, ["b.txt"]⟩ [⟨false, ["c.txt"]⟩]
      (by decide) (by rfl) (by rfl) ⟨[], by rfl⟩
      (by
        intro f hf w'
        simp only [List.mem_singleton] at hf
        subst hf
        rfl)).1 "boom" (by rfl)
  ⟨h.1, h.2.2.1⟩

/-! ## Claim C3 (corrected) -/

def c3FS : FS := { files := [(⟨false, ["a.txt"]⟩, "x")], dirs := [] }

def c3BaseArgs : Args :=
  { input_file := some "a.txt", list := none, file_list := none, dir := none,
    recursive := false, exclude := none, output := none, single_dir := false,
    overwrite := true, env_file := ".env" }

/-- C3 counterexample: supplying both the output directory and the
overwrite flag is NOT rejected — the run succeeds, overwrite wins, the
file is replaced in place and nothing is written beneath `out`. -/
theorem c3_both_flags_counterexample :
    (main (fun _ => .ok "R") (fun _ => none) stubParsers c3FS
        { c3BaseArgs with output := some "out" }).outcome = .success
    ∧ (main (fun _ => .ok "R") (fun _ => none) stubParsers c3FS
        { c3BaseArgs with output := some "out" }).world.fs.readFile ⟨false, ["a.txt"]⟩
        = some "R"
    ∧ (main (fun _ => .ok "R") (fun _ => none) stubParsers c3FS
        { c3BaseArgs with output := some "out" }).world.fs.readFile
          ⟨false, ["out", "a.txt"]⟩ = none := by
  refine ⟨by decide, by decide, by decide⟩

theorem processFile_output_irrelevant (renderFn : FPath → Except String String)
    (wf : FPath → Option String) (a : Args) (o : Option String) (src : FPath) (w : World)
    (hov : a.overwrite = true) :
    processFile renderFn wf { a with output := o } src w = processFile renderFn wf a src w := by
  unfold processFile
  cases renderFn src with
  | error e => rfl
  | ok rendered => simp [hov]

theorem runLoop_output_irrelevant (renderFn : FPath → Except String String)
    (wf : FPath → Option String) (a : Args) (o : Option String) (hov : a.overwrite = true) :
    ∀ files w, runLoop renderFn wf { a with output := o } files w
      = runLoop renderFn wf a files w := by
  intro files
  induction files with
  | nil => intro w; rfl
  | cons p t ih =>
    intro w
    rcases hpf : processFile renderFn wf a p w with ⟨w1, e1⟩
    have hpf2 : processFile renderFn wf { a with output := o } p w = (w1, e1) := by
      rw [processFile_output_irrelevant renderFn wf a o p w hov, hpf]
    cases e1 with
    | none => simp only [runLoop, hpf, hpf2, ih]
    | some e => simp only [runLoop, hpf, hpf2]

/-- C3 amended: the code never rejects the combination of an output
directory and the overwrite flag; instead overwrite-in-place takes
precedence and the output-directory option has no effect at all on the
run's result. -/
theorem c3_overwrite_precedence (renderFn : FPath → Except String String)
    (wf : FPath → Option String) (P : Parsers) (fs : FS) (a : Args) (o : String)
    (hov : a.overwrite = true) :
    main renderFn wf P fs { a with output := some o } = main renderFn wf P fs a := by
  unfold main
  have hcf : collect_files fs { a with output := some o } = collect_files fs a := rfl
  have hns : numSources { a with output := some o } = numSources a := rfl
  rw [hcf, hns]
  by_cases hn : numSources a ≠ 1
  · rw [if_pos hn, if_pos hn]
  · rw [if_neg hn, if_neg hn]
    cases collect_files fs a with
    | error e => rfl
    | ok files =>
      dsimp only
      have hg1 : (!truthy ({ a with output := some o } : Args).output
          && !({ a with output := some o } : Args).overwrite
          && decide (files.length > 1)) = false := by
        simp [hov]
      have hg2 : (!truthy a.output && !a.overwrite && decide (files.length > 1)) = false := by
        simp [hov]
      rw [hg1, hg2]
      simp only [Bool.false_eq_true, if_false]
      cases load_context P fs (FPath.ofString a.env_file) with
      | error e => rfl
      | ok ctx =>
        simp only [runLoop_output_irrelevant renderFn wf a (some o) hov]

theorem c3_overwrite_precedence_witness :
    main (fun _ => .ok "R") (fun _ => none) stubParsers c3FS
        { c3BaseArgs with output := some "out" }
      = main (fun _ => .ok "R") (fun _ => none) stubParsers c3FS c3BaseArgs :=
  c3_overwrite_precedence (fun _ => .ok "R") (fun _ => none) stubParsers c3FS c3BaseArgs
    "out" rfl

/-! ## Claim C1 (corrected) -/

theorem contains_iff_mem (l : List FPath) (q : FPath) : l.contains q = true ↔ q ∈ l := by
  induction l with
  | nil => simp
  | cons x t ih =>
    rw [List.contains_cons]
    constructor
    · intro h
      rcases Bool.or_eq_true_iff.mp h with he | ht
      · exact List.mem_cons.mpr (Or.inl (by simpa using he))
      · exact List.mem_cons.mpr (Or.inr (ih.mp ht))
    · intro h
      rcases List.mem_cons.mp h with he | ht
      · subst he; simp
      · exact Bool.or_eq_true_iff.mpr (Or.inr (ih.mpr ht))

theorem mkdirParents_isDir (fs : FS) (d : FPath) (i : Nat) (hi : i < d.components.length) :
    (fs.mkdirParents d).isDir ⟨d.absolute, d.components.take i⟩ = true := by
  have hanc : (⟨d.absolute, d.components.take i⟩ : FPath) ∈ FPath.ancestors d :=
    List.mem_map.mpr ⟨i, List.mem_range.mpr hi, rfl⟩
  unfold FS.mkdirParents FS.isDir
  rw [contains_iff_mem]
  by_cases hmem : (⟨d.absolute, d.components.take i⟩ : FPath) ∈ fs.dirs
  · exact List.mem_append_left _ hmem
  · refine List.mem_append_right _ (List.mem_filter.mpr ⟨hanc, ?_⟩)
    have hcf : fs.dirs.contains ⟨d.absolute, d.components.take i⟩ = false := by
      rcases hc : fs.dirs.contains ⟨d.absolute, d.components.take i⟩ with _ | _
      · rfl
      · exact absurd ((contains_iff_mem _ _).mp hc) hmem
    rw [hcf]
    rfl

/-- C1 amended: in output-directory mode the destination is
`output_dir / basename` in single-path and comma-list modes and in
file-list/directory modes with the flatten flag; in directory mode
without the flag it is `output_dir /` the path relative to the searched
directory; in file-list mode without the flag it is `output_dir /` the
file's path exactly as listed — so an absolutely-listed path discards
the output directory and the destination is that path itself.  All
missing parent directories of the destination are created before
writing. -/
theorem c1_placement (a : Args) (src : FPath) (outS : String) (hout : a.output = some outS) :
    ((truthy a.input_file || truthy a.list) = true →
      destFor a src = FPath.join (FPath.ofString outS) ⟨false, [src.name]⟩)
    ∧ ((truthy a.input_file || truthy a.list) = false →
        (truthy a.file_list || truthy a.dir) = true → a.single_dir = true →
      destFor a src = FPath.join (FPath.ofString outS) ⟨false, [src.name]⟩)
    ∧ (∀ dirS, (truthy a.input_file || truthy a.list) = false → a.single_dir = false →
        a.dir = some dirS → dirS ≠ "" →
      destFor a src = FPath.join (FPath.ofString outS) (src.relative_to (FPath.ofString dirS)))
    ∧ ((truthy a.input_file || truthy a.list) = false → a.single_dir = false →
        truthy a.dir = false → truthy a.file_list = true →
      destFor a src = FPath.join (FPath.ofString outS) src
      ∧ (src.absolute = true → destFor a src = src))
    ∧ (∀ (wf : FPath → Option String) (srcp d : FPath) (rendered : String) (w : World),
        wf d = none →
        (write_rendered wf srcp rendered (some d) w).2 = none
        ∧ (write_rendered wf srcp rendered (some d) w).1.fs.readFile d = some rendered
        ∧ ∀ i, i < d.components.length →
            (write_rendered wf srcp rendered (some d) w).1.fs.isDir
              ⟨d.absolute, d.components.take i⟩ = true) := by
  have hgetD : a.output.getD "" = outS := by rw [hout]; rfl
  refine ⟨?_, ?_, ?_, ?_, ?_⟩
  · intro hfl
    unfold destFor
    rw [hfl, hgetD]
    simp
  · intro hnfl hfd hsd
    unfold destFor
    rw [hnfl, hfd, hsd, hgetD]
    simp
  · intro dirS hnfl hsd hdir hdne
    have htd : truthy a.dir = true := truthy_some_ne a.dir dirS hdir hdne
    unfold destFor
    rw [hnfl, hsd, htd, hdir, hgetD]
    simp
  · intro hnfl hsd hnd hfl
    unfold destFor
    rw [hnfl, hsd, hnd, hfl, hgetD]
    constructor
    · simp
    · intro habs
      simp [FPath.join, habs]
  · intro wf srcp d rendered w hwf
    refine ⟨?_, ?_, ?_⟩
    · simp [write_rendered, hwf]
    · simp only [write_rendered, hwf]
      unfold FS.writeFile FS.readFile
      simp [List.lookup]
    · intro i hi
      simp only [write_rendered, hwf]
      have heq : ((w.fs.mkdirParents d).writeFile d rendered).isDir
          ⟨d.absolute, d.components.take i⟩
          = (w.fs.mkdirParents d).isDir ⟨d.absolute, d.components.take i⟩ := rfl
      rw [heq]
      exact mkdirParents_isDir w.fs d i hi

def c1FS : FS :=
  { files := [(⟨false, ["fl.txt"]⟩, "/tmp/a.txt\n"), (⟨true, ["tmp", "a.txt"]⟩, "T")]
    dirs := [⟨true, ["tmp"]⟩] }

def c1Args : Args :=
  { input_file := none, list := none, file_list := some "fl.txt", dir := none,
    recursive := false, exclude := none, output := some "out", single_dir := false,
    overwrite := false, env_file := ".env" }

/-- C1 counterexample: in file-list mode without the flatten flag the
destination of an absolutely-listed file is NOT `output_dir` joined
with any relative component — it is the absolute listed path itself,
the run succeeds, and the rendered text lands at that path outside the
output directory. -/
theorem c1_placement_counterexample :
    destFor c1Args ⟨true, ["tmp", "a.txt"]⟩ = ⟨true, ["tmp", "a.txt"]⟩
    ∧ (¬ ∃ rel : FPath, rel.absolute = false ∧
        destFor c1Args ⟨true, ["tmp", "a.txt"]⟩ = FPath.join (FPath.ofString "out") rel)
    ∧ (main (fun _ => .ok "R") (fun _ => none) stubParsers c1FS c1Args).outcome = .success
    ∧ (main (fun _ => .ok "R") (fun _ => none) stubParsers c1FS c1Args).world.fs.readFile
        ⟨true, ["tmp", "a.txt"]⟩ = some "R"
    ∧ (main (fun _ => .ok "R") (fun _ => none) stubParsers c1FS c1Args).world.fs.readFile
        ⟨false, ["out", "tmp", "a.txt"]⟩ = none := by
  refine ⟨by decide, ?_, by decide, by decide, by decide⟩
  rintro ⟨rel, hra, heq⟩
  rw [show destFor c1Args ⟨true, ["tmp", "a.txt"]⟩ = ⟨true, ["tmp", "a.txt"]⟩ from by decide]
    at heq
  have habs := congrArg FPath.absolute heq
  simp only [FPath.join, hra, Bool.false_eq_true, if_false] at habs
  exact absurd habs (by decide)

theorem c1_placement_witness :
    destFor { c1Args with file_list := none, dir := some "src" } ⟨false, ["src", "sub", "t.j2"]⟩
      = ⟨false, ["out", "sub", "t.j2"]⟩
    ∧ (write_rendered (fun _ => none) ⟨false, ["src", "sub", "t.j2"]⟩ "R"
        (some ⟨false, ["out", "sub", "t.j2"]⟩) ⟨c1FS, []⟩).1.fs.isDir ⟨false, ["out", "sub"]⟩
      = true :=
  have h := c1_placement { c1Args with file_list := none, dir := some "src" }
    ⟨false, ["src", "sub", "t.j2"]⟩ "out" rfl
  ⟨(h.2.2.1 "src" (by decide) (by decide) rfl (by decide)).trans (by decide),
    (h.2.2.2.2 (fun _ => none) ⟨false, ["src", "sub", "t.j2"]⟩ ⟨false, ["out", "sub", "t.j2"]⟩
      "R" ⟨c1FS, []⟩ rfl).2.2 2 (by decide)⟩

end Frender
